import Mathlib

/-!
Shallow embedding of the k-fold training harness in `src/train.py`
(repository homomorfism/text-classification-bert) and proofs about it.

The embedded parts are:
* `most_frequent_prediction` (train.py lines 102-113): majority-vote aggregation
  of the per-fold submission tables, via pandas `DataFrame.mode(axis=1)[0]`;
* the 5-fold split `KFold(n_splits=5).split(train_df)` (train.py lines 28-31),
  with scikit-learn's documented unshuffled contiguous-block semantics;
* the orchestration of `train` (train.py lines 20-46) as an event trace;
* the `ModelCheckpoint` configuration of `train_model` (train.py lines 73-78).

Python errors are modelled by `Option` (`none` = the call raises). DataFrame
reference/mutation semantics are modelled by an explicit heap of tables.
-/

namespace TrainPy

/-- A submission table (a pandas `DataFrame` with columns `id` and `prediction`):
`ids` is the `id` column and `preds` the `prediction` column, in row order. -/
structure Submission where
  ids : List String
  preds : List Int
deriving DecidableEq, Repr, Inhabited

/-! ### Prediction aggregation: `most_frequent_prediction` (train.py 102-113) -/

/-- Modelled from the spec: the modal values pandas `DataFrame.mode` computes for
one row — the values of the row occurring with maximal multiplicity. -/
def modeCandidates (row : List Int) : List Int :=
  row.filter (fun x => row.all (fun y => decide (row.count y ≤ row.count x)))

/-- Modelled from the spec: `pd.DataFrame(results).mode(axis=1)[0]` at one row —
pandas sorts the modal values ascending, so column `[0]` holds the smallest
most-frequent value. `none` for an empty row (pandas would leave `NaN`). -/
def rowMode (row : List Int) : Option Int :=
  (modeCandidates row).min?

/-- Row `i` of `pd.DataFrame(results)`: the entry of each fold's prediction
column at position `i` (all columns have equal length wherever this is used). -/
def rowAt (cols : List (List Int)) (i : Nat) : List Int :=
  cols.map (fun c => c.getD i 0)

/-- `most_frequent_prediction` (train.py 102-113). The result is `none` when the
code raises: `fold_submissions[0]` raises `IndexError` on an empty list, and
`pd.DataFrame(results)` raises `ValueError` if the prediction columns differ in
length. Otherwise the output is `sample_submission`, a copy of the first fold
submission whose `prediction` column is replaced by the per-row mode. -/
def most_frequent_prediction (fold_submissions : List Submission) : Option Submission :=
  match fold_submissions with
  | [] => none
  | s :: rest =>
    if (s :: rest).all (fun t => decide (t.preds.length = s.preds.length)) then
      some { ids := s.ids
             preds := (List.range s.preds.length).map
               (fun i => (rowMode (rowAt ((s :: rest).map Submission.preds) i)).getD 0) }
    else none

/-! ### Checkpoint configuration (train.py 73-78) -/

/-- The arguments `train_model` passes to `pytorch_lightning.callbacks.ModelCheckpoint`. -/
structure CheckpointConfig where
  monitor : String
  mode : String
  save_weights_only : Bool
  save_top_k : Int
deriving DecidableEq, Repr

/-- The checkpoint configuration built in `train_model` (train.py 73-78). -/
def checkpointer : CheckpointConfig :=
  { monitor := "val/acc_epoch", mode := "min", save_weights_only := true, save_top_k := 1 }

/-- Modelled from the spec: `ModelCheckpoint` is an external collaborator
(pytorch-lightning); with `save_top_k = 1` it retains the checkpoint whose
monitored score is minimal over the run when `mode = "min"` and maximal when
`mode = "max"`. Scores are validation accuracies scaled to integers. -/
def retainedScore (mode : String) (scores : List Int) : Option Int :=
  if mode = "min" then scores.min? else if mode = "max" then scores.max? else none

/-- The predictions of row position `i` across the folds: the transposed row the
spec calls "that row's predictions across the K folds". -/
def foldRow (subs : List Submission) (i : Nat) : List Int :=
  subs.map (fun t => t.preds.getD i 0)

/-! ### Fold splitting: `KFold(n_splits=5).split(train_df)` (train.py 28, 31) -/

/-- Modelled from the spec: the fold sizes of scikit-learn `KFold` without
shuffling — each of the `K` folds has `N / K` validation rows and the first
`N % K` folds get one extra row. -/
def foldSizes (K N : Nat) : List Nat :=
  (List.range K).map (fun i => N / K + if i < N % K then 1 else 0)

/-- Modelled from the spec: consecutive blocks of row indices of the given
sizes, starting at `start` — the contiguous validation blocks of `KFold`. -/
def kfoldBlocks : Nat → List Nat → List (List Nat)
  | _, [] => []
  | start, sz :: rest => List.range' start sz :: kfoldBlocks (start + sz) rest

/-- Modelled from the spec: `KFold(n_splits=K).split(X)` over `N` rows, yielding
`(train_indices, val_indices)` pairs; validation sets are contiguous blocks in
row order (no shuffling, no stratification) and train indices are the
complement. `none` models scikit-learn raising `ValueError` when `K < 2` or
when there are more splits than samples (`K > N`). -/
def KFold_split (K N : Nat) : Option (List (List Nat × List Nat)) :=
  if 2 ≤ K ∧ K ≤ N then
    some ((kfoldBlocks 0 (foldSizes K N)).map
      (fun v => ((List.range N).filter (fun j => decide (j ∉ v)), v)))
  else none

/-! ### Orchestration: `train` (train.py 20-46) -/

/-- The externally observable steps of one `train` run, in program order. -/
inductive Event where
  | trainFold : Nat → Event
  | aggregate : Event
  | writeFinalSubmission : Event
  | trackerInitRun : Event
  | trackerSaveArtifact : Event
  | trackerFinishRun : Event
deriving DecidableEq, Repr

/-- The tail of every successful run's trace: `most_frequent_prediction`, then
`final_submission.to_csv(... / "submission.csv")`, then `wandb.init`,
`wandb.save`, `wandb.finish` (train.py 36-44). -/
def finishEvents : List Event :=
  [Event.aggregate, Event.writeFinalSubmission, Event.trackerInitRun,
   Event.trackerSaveArtifact, Event.trackerFinishRun]

/-- The `train` entry point (train.py 20-46), with the per-fold work abstracted
as `trainModel` (the `train_model` call returns that fold's submission table):
split the `N` training rows into 5 folds, run `train_model` once per fold in
fold order appending each returned fold submission, then aggregate once, write
`submission.csv` once, and upload it via the tracker. The second component is
the trace of observable steps in execution order. -/
def train (trainModel : Nat → List Nat × List Nat → Submission) (N : Nat) :
    Option (Submission × List Event) :=
  (KFold_split 5 N).bind (fun splits =>
    (most_frequent_prediction (splits.enum.map (fun p => trainModel p.1 p.2))).map
      (fun final =>
        (final, splits.enum.map (fun p => Event.trainFold p.1) ++ finishEvents)))

/-! ### Heap model of DataFrame reference semantics -/

/-- `most_frequent_prediction` on an explicit heap of tables: the heap is the
list of allocated DataFrames and the inputs are references (indices) into it.
Following train.py 103 and 111, `fold_submissions[0].copy()` allocates a fresh
cell, the loop only reads the referenced tables, and the single mutation
(`sample_submission.prediction = prediction`) hits the fresh cell, which is
appended to the heap and returned by reference. `none` models the same raises
as `most_frequent_prediction`, plus invalid references. -/
def most_frequent_prediction_heap (heap : List Submission) (refs : List Nat) :
    Option (List Submission × Nat) :=
  if refs.all (fun r => decide (r < heap.length)) then
    match most_frequent_prediction (refs.map (fun r => heap.getD r default)) with
    | none => none
    | some out => some (heap ++ [out], heap.length)
  else none

/-- Antisymmetry of `≤` on `ℤ`, packaged for `List.min?_eq_some_iff`. -/
instance : Std.Antisymm (fun (a b : Int) => a ≤ b) :=
  ⟨fun h₁ h₂ => le_antisymm h₁ h₂⟩

end TrainPy

namespace TrainPy

/-- C9: `most_frequent_prediction` applied to the empty list fails
(`fold_submissions[0]` raises `IndexError`) rather than returning a table. -/
theorem most_frequent_prediction_nil :
    most_frequent_prediction [] = none := rfl

/-- Membership in the modal-value candidates: exactly the row values of maximal
multiplicity. -/
theorem mem_modeCandidates {row : List Int} {x : Int} :
    x ∈ modeCandidates row ↔ x ∈ row ∧ ∀ y ∈ row, row.count y ≤ row.count x := by
  simp [modeCandidates, List.mem_filter, List.all_eq_true]

/-- A non-empty row has at least one value of maximal multiplicity. -/
theorem modeCandidates_ne_nil {row : List Int} (h : row ≠ []) :
    modeCandidates row ≠ [] := by
  obtain ⟨b, hb, hmax⟩ := Finset.exists_max_image row.toFinset (fun y => row.count y)
    (by simp [List.toFinset_nonempty_iff, h])
  refine List.ne_nil_of_mem (mem_modeCandidates.2 ⟨List.mem_toFinset.1 hb, ?_⟩)
  intro y hy
  exact hmax y (List.mem_toFinset.2 hy)

/-- On a non-empty row, `rowMode` returns a member of maximal multiplicity that
is least among the values of maximal multiplicity (pandas sorts the modes and
column `[0]` takes the smallest). -/
theorem rowMode_spec {row : List Int} (h : row ≠ []) :
    ∃ m, rowMode row = some m ∧ m ∈ row ∧
      (∀ y ∈ row, row.count y ≤ row.count m) ∧
      (∀ y ∈ row, row.count m ≤ row.count y → m ≤ y) := by
  obtain ⟨m, hm⟩ : ∃ m, (modeCandidates row).min? = some m := by
    cases hmin : (modeCandidates row).min? with
    | none => exact absurd (List.min?_eq_none_iff.1 hmin) (modeCandidates_ne_nil h)
    | some m => exact ⟨m, rfl⟩
  obtain ⟨hmem, hle⟩ := (List.min?_eq_some_iff (fun a => le_refl a)
    (fun a b => min_choice a b) (fun a b c => le_min_iff)).1 hm
  obtain ⟨hmrow, hmmax⟩ := mem_modeCandidates.1 hmem
  refine ⟨m, hm, hmrow, hmmax, ?_⟩
  intro y hy hcy
  exact hle y (mem_modeCandidates.2 ⟨hy, fun z hz => le_trans (hmmax z hz) hcy⟩)

/-- Evaluation of `most_frequent_prediction` on a non-empty list of equal-length
fold submissions: the ids of the first submission, and per row position the
mode of the transposed row. -/
theorem most_frequent_prediction_cons {s : Submission} {rest : List Submission}
    (hlen : ∀ t ∈ s :: rest, t.preds.length = s.preds.length) :
    most_frequent_prediction (s :: rest) =
      some { ids := s.ids
             preds := (List.range s.preds.length).map
               (fun i => (rowMode (foldRow (s :: rest) i)).getD 0) } := by
  have hcond : (s :: rest).all (fun t => decide (t.preds.length = s.preds.length)) = true := by
    simpa using hlen
  have hrow : ∀ i, rowAt ((s :: rest).map Submission.preds) i = foldRow (s :: rest) i := by
    intro i
    simp [rowAt, foldRow, List.map_map, Function.comp]
  simp only [most_frequent_prediction, hcond, if_pos, hrow]

/-- The prediction column of the aggregate, read at row position `i < n`. -/
theorem aggregate_pred_getD {s : Submission} {rest : List Submission} {i : Nat}
    (hi : i < s.preds.length) :
    (((List.range s.preds.length).map
        (fun j => (rowMode (foldRow (s :: rest) j)).getD 0)).getD i 0) =
      (rowMode (foldRow (s :: rest) i)).getD 0 := by
  simp [List.getD_eq_getElem?_getD, List.getElem?_map, List.getElem?_range hi]

/-- A transposed row over a non-empty submission list is non-empty. -/
theorem foldRow_ne_nil (s : Submission) (rest : List Submission) (i : Nat) :
    foldRow (s :: rest) i ≠ [] := by
  simp [foldRow]

/-- Master characterization of the aggregator on a non-empty list of
equal-length fold submissions: it succeeds, keeps the first submission's ids,
keeps the row count, and at every row position returns a value of maximal
multiplicity in the transposed row that is least among the tied maxima. -/
theorem most_frequent_prediction_rows (s : Submission) (rest : List Submission)
    (hlen : ∀ t ∈ s :: rest, t.preds.length = s.preds.length) :
    ∃ out, most_frequent_prediction (s :: rest) = some out ∧
      out.ids = s.ids ∧
      out.preds.length = s.preds.length ∧
      ∀ i, i < s.preds.length →
        out.preds.getD i 0 ∈ foldRow (s :: rest) i ∧
        (∀ y ∈ foldRow (s :: rest) i,
          (foldRow (s :: rest) i).count y ≤
            (foldRow (s :: rest) i).count (out.preds.getD i 0)) ∧
        (∀ y ∈ foldRow (s :: rest) i,
          (foldRow (s :: rest) i).count (out.preds.getD i 0) ≤
            (foldRow (s :: rest) i).count y → out.preds.getD i 0 ≤ y) := by
  refine ⟨⟨s.ids, (List.range s.preds.length).map
      (fun j => (rowMode (foldRow (s :: rest) j)).getD 0)⟩,
    most_frequent_prediction_cons hlen, rfl, by simp, ?_⟩
  intro i hi
  obtain ⟨m, hm, hmrow, hmmax, hmin⟩ := rowMode_spec (foldRow_ne_nil s rest i)
  have hval : (Submission.mk s.ids ((List.range s.preds.length).map
      (fun j => (rowMode (foldRow (s :: rest) j)).getD 0))).preds.getD i 0 = m := by
    show ((List.range s.preds.length).map
      (fun j => (rowMode (foldRow (s :: rest) j)).getD 0)).getD i 0 = m
    rw [aggregate_pred_getD hi, hm]
    rfl
  rw [hval]
  exact ⟨hmrow, hmmax, hmin⟩

/-- C1: for every non-empty list of fold submissions sharing identical row ids
and row ordering (equal prediction-column lengths), `most_frequent_prediction`
succeeds and its prediction at each row position is a most frequent predicted
class (a statistical mode) of that row's predictions across the folds. The
claim's concrete instance `[[0,0,1],[0,1,1],[1,1,1]] ↦ [0,1,1]` is evaluated in
the witness. -/
theorem most_frequent_prediction_is_rowwise_mode (s : Submission) (rest : List Submission)
    (hids : ∀ t ∈ s :: rest, t.ids = s.ids)
    (hlen : ∀ t ∈ s :: rest, t.preds.length = s.preds.length) :
    ∃ out, most_frequent_prediction (s :: rest) = some out ∧
      out.preds.length = s.preds.length ∧
      ∀ i < s.preds.length,
        out.preds.getD i 0 ∈ foldRow (s :: rest) i ∧
        ∀ y ∈ foldRow (s :: rest) i,
          (foldRow (s :: rest) i).count y ≤
            (foldRow (s :: rest) i).count (out.preds.getD i 0) := by
  obtain ⟨out, hout, _, hlen', hrows⟩ := most_frequent_prediction_rows s rest hlen
  exact ⟨out, hout, hlen', fun i hi => ⟨(hrows i hi).1, (hrows i hi).2.1⟩⟩

/-- Witness for C1 at the claim's concrete input: fold prediction columns
`[0,0,1]`, `[0,1,1]`, `[1,1,1]` aggregate to `[0,1,1]` (row 0 predictions
`{0,0,1}` give 0, row 2 predictions `{1,1,1}` give 1). -/
theorem most_frequent_prediction_is_rowwise_mode_witness :
    most_frequent_prediction
        [⟨["r0", "r1", "r2"], [0, 0, 1]⟩, ⟨["r0", "r1", "r2"], [0, 1, 1]⟩,
          ⟨["r0", "r1", "r2"], [1, 1, 1]⟩] =
      some ⟨["r0", "r1", "r2"], [0, 1, 1]⟩ ∧
    (∃ out, most_frequent_prediction
        [⟨["r0", "r1", "r2"], [0, 0, 1]⟩, ⟨["r0", "r1", "r2"], [0, 1, 1]⟩,
          ⟨["r0", "r1", "r2"], [1, 1, 1]⟩] = some out ∧
      out.preds.length = (Submission.mk ["r0", "r1", "r2"] [0, 0, 1]).preds.length ∧
      ∀ i < (Submission.mk ["r0", "r1", "r2"] [0, 0, 1]).preds.length,
        out.preds.getD i 0 ∈ foldRow [⟨["r0", "r1", "r2"], [0, 0, 1]⟩,
            ⟨["r0", "r1", "r2"], [0, 1, 1]⟩, ⟨["r0", "r1", "r2"], [1, 1, 1]⟩] i ∧
        ∀ y ∈ foldRow [⟨["r0", "r1", "r2"], [0, 0, 1]⟩, ⟨["r0", "r1", "r2"], [0, 1, 1]⟩,
            ⟨["r0", "r1", "r2"], [1, 1, 1]⟩] i,
          (foldRow [⟨["r0", "r1", "r2"], [0, 0, 1]⟩, ⟨["r0", "r1", "r2"], [0, 1, 1]⟩,
              ⟨["r0", "r1", "r2"], [1, 1, 1]⟩] i).count y ≤
            (foldRow [⟨["r0", "r1", "r2"], [0, 0, 1]⟩, ⟨["r0", "r1", "r2"], [0, 1, 1]⟩,
                ⟨["r0", "r1", "r2"], [1, 1, 1]⟩] i).count (out.preds.getD i 0)) :=
  ⟨by decide,
    most_frequent_prediction_is_rowwise_mode ⟨["r0", "r1", "r2"], [0, 0, 1]⟩
      [⟨["r0", "r1", "r2"], [0, 1, 1]⟩, ⟨["r0", "r1", "r2"], [1, 1, 1]⟩]
      (by decide) (by decide)⟩

/-- C3: at every row position the aggregator's choice is deterministic and tie
ties resolve to the numerically smallest class among the tied (equal, maximal
count) classes: any row value whose multiplicity equals that of the chosen
value is bounded below by the chosen value. The claim's all-distinct instance
`{0,1,2} ↦ 0` is evaluated in the witness. -/
theorem most_frequent_prediction_tie_smallest (s : Submission) (rest : List Submission)
    (hlen : ∀ t ∈ s :: rest, t.preds.length = s.preds.length) :
    ∃ out, most_frequent_prediction (s :: rest) = some out ∧
      ∀ i < s.preds.length, ∀ y ∈ foldRow (s :: rest) i,
        (foldRow (s :: rest) i).count y =
            (foldRow (s :: rest) i).count (out.preds.getD i 0) →
          out.preds.getD i 0 ≤ y := by
  obtain ⟨out, hout, _, _, hrows⟩ := most_frequent_prediction_rows s rest hlen
  refine ⟨out, hout, ?_⟩
  intro i hi y hy hcount
  exact (hrows i hi).2.2 y hy (le_of_eq hcount.symm)

/-- Witness for C3 at the claim's concrete input: three folds predicting 2, 0
and 1 for the single row (row predictions `{2,0,1}`, all counts 1) aggregate to
the numerically smallest class 0. -/
theorem most_frequent_prediction_tie_smallest_witness :
    most_frequent_prediction [⟨["t0"], [2]⟩, ⟨["t0"], [0]⟩, ⟨["t0"], [1]⟩] =
      some ⟨["t0"], [0]⟩ ∧
    (∃ out, most_frequent_prediction [⟨["t0"], [2]⟩, ⟨["t0"], [0]⟩, ⟨["t0"], [1]⟩] =
        some out ∧
      ∀ i < (Submission.mk ["t0"] [2]).preds.length,
        ∀ y ∈ foldRow [⟨["t0"], [2]⟩, ⟨["t0"], [0]⟩, ⟨["t0"], [1]⟩] i,
          (foldRow [⟨["t0"], [2]⟩, ⟨["t0"], [0]⟩, ⟨["t0"], [1]⟩] i).count y =
              (foldRow [⟨["t0"], [2]⟩, ⟨["t0"], [0]⟩,
                ⟨["t0"], [1]⟩] i).count (out.preds.getD i 0) →
            out.preds.getD i 0 ≤ y) :=
  ⟨by decide,
    most_frequent_prediction_tie_smallest ⟨["t0"], [2]⟩ [⟨["t0"], [0]⟩, ⟨["t0"], [1]⟩]
      (by decide)⟩

/-- C5: for a non-empty list of fold submissions with identical, duplicate-free
row ids and identical row ordering, the aggregate has the same ids in the same
order, its row count equals the input row count, and it has exactly one row per
unique id. -/
theorem most_frequent_prediction_shape (s : Submission) (rest : List Submission)
    (hids : ∀ t ∈ s :: rest, t.ids = s.ids)
    (hlen : ∀ t ∈ s :: rest, t.preds.length = s.preds.length)
    (hwf : ∀ t ∈ s :: rest, t.ids.length = t.preds.length)
    (hnodup : s.ids.Nodup) :
    ∃ out, most_frequent_prediction (s :: rest) = some out ∧
      out.ids = s.ids ∧
      out.preds.length = s.preds.length ∧
      out.ids.length = out.preds.length ∧
      ∀ a ∈ out.ids, out.ids.count a = 1 := by
  obtain ⟨out, hout, hids', hlen', _⟩ := most_frequent_prediction_rows s rest hlen
  refine ⟨out, hout, hids', hlen', ?_, ?_⟩
  · rw [hids', hlen']
    exact hwf s (by simp)
  · intro a ha
    rw [hids'] at ha ⊢
    exact List.count_eq_one_of_mem hnodup ha

/-- Witness for C5: two identical-id fold submissions over three rows. -/
theorem most_frequent_prediction_shape_witness :
    ∃ out, most_frequent_prediction
        [⟨["a", "b", "c"], [1, 2, 0]⟩, ⟨["a", "b", "c"], [1, 0, 0]⟩] = some out ∧
      out.ids = (Submission.mk ["a", "b", "c"] [1, 2, 0]).ids ∧
      out.preds.length = (Submission.mk ["a", "b", "c"] [1, 2, 0]).preds.length ∧
      out.ids.length = out.preds.length ∧
      ∀ a ∈ out.ids, out.ids.count a = 1 :=
  most_frequent_prediction_shape ⟨["a", "b", "c"], [1, 2, 0]⟩ [⟨["a", "b", "c"], [1, 0, 0]⟩]
    (by decide) (by decide) (by decide) (by decide)

/-- C4: the code is configured with `monitor = "val/acc_epoch"` and
`mode = "min"`, so over epoch accuracies `[50, 90]` (percent) the retained
checkpoint scores 50, not the best (maximal) accuracy 90, which `mode = "max"`
would have retained: the configuration contradicts the documented intent of
keeping the best checkpoint by validation accuracy. -/
theorem checkpointer_min_mode_keeps_worst :
    checkpointer.monitor = "val/acc_epoch" ∧
    checkpointer.mode = "min" ∧
    retainedScore checkpointer.mode [50, 90] = some 50 ∧
    retainedScore "max" [50, 90] = some 90 ∧
    ¬ (∀ s ∈ [(50 : Int), 90], s ≤ 50) := by
  refine ⟨rfl, rfl, rfl, rfl, ?_⟩
  intro h
  exact absurd (h 90 (by simp)) (by decide)

/-- Evaluation of the heap-level aggregator when all references are valid and
the table-level aggregator succeeds: the heap grows by exactly the fresh output
cell, returned by reference. -/
theorem most_frequent_prediction_heap_eval (heap : List Submission) (refs : List Nat)
    (hvalid : ∀ r ∈ refs, r < heap.length) {out : Submission}
    (hout : most_frequent_prediction (refs.map (fun r => heap.getD r default)) = some out) :
    most_frequent_prediction_heap heap refs = some (heap ++ [out], heap.length) := by
  have hcond : refs.all (fun r => decide (r < heap.length)) = true := by
    simpa using hvalid
  unfold most_frequent_prediction_heap
  rw [if_pos hcond, hout]

/-- Reading an old cell of the heap is unaffected by appending the output. -/
theorem getD_append_old (heap : List Submission) (out : Submission) {r : Nat}
    (hr : r < heap.length) :
    (heap ++ [out]).getD r default = heap.getD r default := by
  rw [List.getD_eq_getElem?_getD, List.getD_eq_getElem?_getD, List.getElem?_append_left hr]

/-- C10: the aggregator mutates none of its inputs — it copies the first
referenced table into a fresh heap cell and only writes there — so after the
call every previously allocated table is unchanged, and the output's id column
is taken verbatim from the first fold submission in the list. -/
theorem most_frequent_prediction_heap_frame (heap : List Submission)
    (r₀ : Nat) (rest : List Nat)
    (hvalid : ∀ r ∈ r₀ :: rest, r < heap.length)
    (hlen : ∀ r ∈ r₀ :: rest,
      (heap.getD r default).preds.length = (heap.getD r₀ default).preds.length) :
    ∃ out, most_frequent_prediction_heap heap (r₀ :: rest) =
        some (heap ++ [out], heap.length) ∧
      (∀ i, i < heap.length → (heap ++ [out])[i]? = heap[i]?) ∧
      out.ids = (heap.getD r₀ default).ids := by
  obtain ⟨out, hout, hids, -, -⟩ :=
    most_frequent_prediction_rows (heap.getD r₀ default)
      (rest.map (fun r => heap.getD r default))
      (by
        intro t ht
        rcases List.mem_cons.1 ht with h | h
        · rw [h]
        · obtain ⟨r, hr, rfl⟩ := List.mem_map.1 h
          exact hlen r (List.mem_cons_of_mem _ hr))
  refine ⟨out, most_frequent_prediction_heap_eval heap (r₀ :: rest) hvalid (by simpa using hout),
    ?_, hids⟩
  intro i hi
  exact List.getElem?_append_left hi

/-- C7: the aggregator is deterministic and read-only on its inputs — if one
run on a heap returns a result table, re-running it on the resulting heap with
the same input references succeeds and returns an identical result table. -/
theorem most_frequent_prediction_heap_deterministic (heap : List Submission)
    (refs : List Nat) (h₁ : List Submission) (r₁ : Nat)
    (hrun : most_frequent_prediction_heap heap refs = some (h₁, r₁)) :
    ∃ h₂ r₂, most_frequent_prediction_heap h₁ refs = some (h₂, r₂) ∧
      h₂[r₂]? = h₁[r₁]? := by
  unfold most_frequent_prediction_heap at hrun
  by_cases hcond : refs.all (fun r => decide (r < heap.length)) = true
  · rw [if_pos hcond] at hrun
    have hvalid : ∀ r ∈ refs, r < heap.length := by
      intro r hr
      simpa using List.all_eq_true.1 hcond r hr
    cases hmfp : most_frequent_prediction (refs.map (fun r => heap.getD r default)) with
    | none =>
      rw [hmfp] at hrun
      cases hrun
    | some out =>
      rw [hmfp] at hrun
      have hpair : (heap ++ [out], heap.length) = (h₁, r₁) := Option.some.inj hrun
      have hheap : heap ++ [out] = h₁ := congrArg Prod.fst hpair
      have href : heap.length = r₁ := congrArg Prod.snd hpair
      have hvalid' : ∀ r ∈ refs, r < h₁.length := by
        intro r hr
        rw [← hheap]
        calc r < heap.length := hvalid r hr
          _ ≤ (heap ++ [out]).length := by simp
      have hreads : refs.map (fun r => h₁.getD r default) =
          refs.map (fun r => heap.getD r default) := by
        apply List.map_congr_left
        intro r hr
        rw [← hheap]
        exact getD_append_old heap out (hvalid r hr)
      refine ⟨h₁ ++ [out], h₁.length,
        most_frequent_prediction_heap_eval h₁ refs hvalid' (by rw [hreads, hmfp]), ?_⟩
      rw [List.getElem?_concat_length, ← hheap, ← href, List.getElem?_concat_length]
  · rw [if_neg hcond] at hrun
    cases hrun

/-- Sum of `K` copies of `a`, plus one for each `i < min K r`. -/
theorem sum_range_add_indicator (K a r : Nat) :
    ((List.range K).map (fun i => a + if i < r then 1 else 0)).sum = K * a + min K r := by
  induction K with
  | zero => simp
  | succ n ih =>
    rw [List.range_succ, List.map_append, List.sum_append, ih]
    simp only [List.map_cons, List.map_nil, List.sum_cons, List.sum_nil]
    by_cases h : n < r
    · rw [if_pos h]
      have h1 : min n r = n := by omega
      have h2 : min (n + 1) r = n + 1 := by omega
      rw [h1, h2, Nat.succ_mul]
      ring
    · rw [if_neg h]
      have h1 : min n r = r := by omega
      have h2 : min (n + 1) r = r := by omega
      rw [h1, h2, Nat.succ_mul]
      ring

/-- The scikit-learn fold sizes add up to the number of rows. -/
theorem foldSizes_sum (K N : Nat) (hK : 0 < K) : (foldSizes K N).sum = N := by
  unfold foldSizes
  rw [sum_range_add_indicator]
  have h1 : N % K < K := Nat.mod_lt _ hK
  have h2 : min K (N % K) = N % K := by omega
  rw [h2]
  exact Nat.div_add_mod N K

/-- There is one fold size per fold. -/
theorem foldSizes_length (K N : Nat) : (foldSizes K N).length = K := by
  simp [foldSizes]

/-- Flattening the consecutive validation blocks yields the contiguous index
interval of the total size. -/
theorem kfoldBlocks_flatten (sizes : List Nat) :
    ∀ start, (kfoldBlocks start sizes).flatten = List.range' start sizes.sum := by
  induction sizes with
  | nil =>
    intro start
    simp [kfoldBlocks]
  | cons sz rest ih =>
    intro start
    simp only [kfoldBlocks, List.flatten_cons, ih, List.sum_cons]
    rw [List.range'_append_1, Nat.add_comm]

/-- There are as many validation blocks as sizes. -/
theorem kfoldBlocks_length (sizes : List Nat) :
    ∀ start, (kfoldBlocks start sizes).length = sizes.length := by
  induction sizes with
  | nil =>
    intro start
    rfl
  | cons sz rest ih =>
    intro start
    simp [kfoldBlocks, ih]

/-- Every validation block is a contiguous interval of row indices. -/
theorem kfoldBlocks_contiguous (sizes : List Nat) :
    ∀ start v, v ∈ kfoldBlocks start sizes → ∃ a b, v = List.range' a b := by
  induction sizes with
  | nil =>
    intro start v hv
    simp [kfoldBlocks] at hv
  | cons sz rest ih =>
    intro start v hv
    rcases List.mem_cons.1 hv with h | h
    · exact ⟨start, sz, h⟩
    · exact ih _ v h

/-- Evaluation of `KFold_split` on its valid domain (`2 ≤ K ≤ N`). -/
theorem KFold_split_eq_some {K N : Nat} (hK : 2 ≤ K) (hN : K ≤ N) :
    KFold_split K N = some ((kfoldBlocks 0 (foldSizes K N)).map
      (fun v => ((List.range N).filter (fun j => decide (j ∉ v)), v))) := by
  unfold KFold_split
  rw [if_pos ⟨hK, hN⟩]

/-- The validation components of the generated (train, validation) pairs are
exactly the contiguous blocks. -/
theorem KFold_vals (K N : Nat) :
    ((kfoldBlocks 0 (foldSizes K N)).map
      (fun v => ((List.range N).filter (fun j => decide (j ∉ v)), v))).map Prod.snd =
      kfoldBlocks 0 (foldSizes K N) := by
  rw [List.map_map]
  exact List.map_id _

/-- In a duplicate-free flattened family, each element lies in exactly one part. -/
theorem countP_eq_one_of_nodup_flatten (L : List (List Nat)) (j : Nat)
    (hnd : L.flatten.Nodup) (hj : j ∈ L.flatten) :
    L.countP (fun v => decide (j ∈ v)) = 1 := by
  induction L with
  | nil => simp at hj
  | cons v rest ih =>
    rw [List.flatten_cons, List.nodup_append] at hnd
    obtain ⟨hv, hrest, hdisj⟩ := hnd
    rw [List.flatten_cons] at hj
    rw [List.countP_cons]
    rcases List.mem_append.1 hj with h | h
    · have h0 : rest.countP (fun u => decide (j ∈ u)) = 0 := by
        rw [List.countP_eq_zero]
        intro u hu
        simp only [decide_eq_true_eq]
        intro hju
        exact hdisj h (List.mem_flatten.2 ⟨u, hu, hju⟩)
      simp [h0, h]
    · have h1 : rest.countP (fun u => decide (j ∈ u)) = 1 := ih hrest h
      have hnv : j ∉ v := fun hjv => hdisj hjv h
      simp [h1, hnv]

/-- C2 counterexample: at `K = 1` with `N = 1 ≥ K` the splitter produces no
(train, validation) pair at all — scikit-learn's `KFold` raises `ValueError`
for fewer than 2 splits — so the claim's quantification over every `K` with
`N ≥ K` fails at `K = 1`; the partition property holds on the domain `K ≥ 2`. -/
theorem KFold_split_one_raises :
    KFold_split 1 1 = none ∧ ∀ splits, KFold_split 1 1 ≠ some splits := by
  refine ⟨rfl, ?_⟩
  intro splits h
  rw [show KFold_split 1 1 = none from rfl] at h
  cases h

/-- C2: on scikit-learn's valid domain (`2 ≤ K`, `K ≤ N`) the splitter yields
`K` (train, validation) pairs whose validation sets flatten, in order, to the
full row-index set `0..N-1`, are pairwise disjoint (each row index lies in
exactly one validation set), and whose train indices are exactly the
complement of the corresponding validation indices. -/
theorem KFold_split_partition (K N : Nat) (hK : 2 ≤ K) (hN : K ≤ N) :
    ∃ splits, KFold_split K N = some splits ∧
      splits.length = K ∧
      (splits.map Prod.snd).flatten = List.range N ∧
      List.Pairwise List.Disjoint (splits.map Prod.snd) ∧
      (∀ j < N, (splits.map Prod.snd).countP (fun v => decide (j ∈ v)) = 1) ∧
      ∀ p ∈ splits, ∀ j < N, (j ∈ p.1 ↔ j ∉ p.2) := by
  refine ⟨_, KFold_split_eq_some hK hN, ?_, ?_, ?_, ?_, ?_⟩
  · simp [kfoldBlocks_length, foldSizes_length]
  · have hvals := KFold_vals K N
    rw [hvals, kfoldBlocks_flatten, foldSizes_sum K N (by omega), ← List.range_eq_range']
  · have hvals := KFold_vals K N
    have hnd : ((kfoldBlocks 0 (foldSizes K N))).flatten.Nodup := by
      rw [kfoldBlocks_flatten, foldSizes_sum K N (by omega), ← List.range_eq_range']
      exact List.nodup_range N
    rw [hvals]
    exact (List.nodup_flatten.1 hnd).2
  · intro j hj
    have hvals := KFold_vals K N
    have hflat : ((kfoldBlocks 0 (foldSizes K N))).flatten = List.range N := by
      rw [kfoldBlocks_flatten, foldSizes_sum K N (by omega), ← List.range_eq_range']
    rw [hvals]
    refine countP_eq_one_of_nodup_flatten _ j ?_ ?_
    · rw [hflat]
      exact List.nodup_range N
    · rw [hflat]
      exact List.mem_range.2 hj
  · intro p hp j hj
    obtain ⟨v, hv, rfl⟩ := List.mem_map.1 hp
    simp [List.mem_filter, List.mem_range, hj]

/-- Witness for C2 at `K = 5`, `N = 7`. -/
theorem KFold_split_partition_witness :
    ∃ splits, KFold_split 5 7 = some splits ∧
      splits.length = 5 ∧
      (splits.map Prod.snd).flatten = List.range 7 ∧
      List.Pairwise List.Disjoint (splits.map Prod.snd) ∧
      (∀ j < 7, (splits.map Prod.snd).countP (fun v => decide (j ∈ v)) = 1) ∧
      ∀ p ∈ splits, ∀ j < 7, (j ∈ p.1 ↔ j ∉ p.2) :=
  KFold_split_partition 5 7 (by decide) (by decide)

/-- C8: the splitter shuffles nothing: it is a pure function of `N` alone, and
every validation set is a contiguous block `range' a b` of row indices in the
original row order; in particular 10 training rows give 5 folds whose
validation sets are `[0,1], [2,3], [4,5], [6,7], [8,9]` (2 validation and 8
train rows each, covering all 10 rows exactly once). -/
theorem KFold_split_contiguous_blocks (N : Nat) (hN : 5 ≤ N) :
    (∃ splits, KFold_split 5 N = some splits ∧
      ∀ p ∈ splits, ∃ a b, p.2 = List.range' a b) ∧
    KFold_split 5 10 = some
      [([2, 3, 4, 5, 6, 7, 8, 9], [0, 1]),
       ([0, 1, 4, 5, 6, 7, 8, 9], [2, 3]),
       ([0, 1, 2, 3, 6, 7, 8, 9], [4, 5]),
       ([0, 1, 2, 3, 4, 5, 8, 9], [6, 7]),
       ([0, 1, 2, 3, 4, 5, 6, 7], [8, 9])] := by
  constructor
  · refine ⟨_, KFold_split_eq_some (by omega) hN, ?_⟩
    intro p hp
    obtain ⟨v, hv, rfl⟩ := List.mem_map.1 hp
    exact kfoldBlocks_contiguous _ 0 v hv
  · decide

/-- Evaluation of `train` when the split and the aggregation both succeed. -/
theorem train_eval (tm : Nat → List Nat × List Nat → Submission) (N : Nat)
    (splits : List (List Nat × List Nat)) (out : Submission)
    (hsplit : KFold_split 5 N = some splits)
    (hout : most_frequent_prediction (splits.enum.map (fun p => tm p.1 p.2)) = some out) :
    train tm N =
      some (out, splits.enum.map (fun p => Event.trainFold p.1) ++ finishEvents) := by
  unfold train
  rw [hsplit]
  show (most_frequent_prediction (splits.enum.map (fun p => tm p.1 p.2))).map _ = _
  rw [hout]
  rfl

/-- C6: for `N ≥ 5` training rows and a per-fold trainer whose fold submissions
all have `M` rows, `train` makes exactly 5 per-fold trainer invocations, one
per fold index 0..4 in that order, collects the returned fold submissions in
fold order, invokes the aggregator exactly once after all folds, then writes
`submission.csv` and uploads it via the tracker: its trace is exactly
`trainFold 0, ..., trainFold 4, aggregate, writeFinalSubmission,
trackerInitRun, trackerSaveArtifact, trackerFinishRun`, and its result is the
aggregate of the fold submissions listed in fold order. -/
theorem train_sequential_trace (tm : Nat → List Nat × List Nat → Submission) (N M : Nat)
    (hN : 5 ≤ N) (hM : ∀ i p, (tm i p).preds.length = M) :
    ∃ splits final, KFold_split 5 N = some splits ∧
      most_frequent_prediction (splits.enum.map (fun p => tm p.1 p.2)) = some final ∧
      train tm N = some (final, (List.range 5).map Event.trainFold ++ finishEvents) := by
  have hsplit := KFold_split_eq_some (show (2 : Nat) ≤ 5 by omega) hN
  set splits := (kfoldBlocks 0 (foldSizes 5 N)).map
      (fun v => ((List.range N).filter (fun j => decide (j ∉ v)), v)) with hsplitsdef
  have hlen5 : splits.length = 5 := by
    simp [hsplitsdef, kfoldBlocks_length, foldSizes_length]
  have hpne : splits.enum.map (fun p => tm p.1 p.2) ≠ [] := by
    intro hcon
    have hcontra := congrArg List.length hcon
    simp [List.enum_length, hlen5] at hcontra
  obtain ⟨s, rest, hcons⟩ := List.exists_cons_of_ne_nil hpne
  have hsM : s.preds.length = M := by
    have hs : s ∈ splits.enum.map (fun p => tm p.1 p.2) := by
      rw [hcons]
      exact List.mem_cons_self _ _
    obtain ⟨p, -, rfl⟩ := List.mem_map.1 hs
    exact hM p.1 p.2
  have hall : ∀ t ∈ s :: rest, t.preds.length = s.preds.length := by
    intro t ht
    have ht' : t ∈ splits.enum.map (fun p => tm p.1 p.2) := by
      rw [hcons]
      exact ht
    obtain ⟨p, -, rfl⟩ := List.mem_map.1 ht'
    rw [hM p.1 p.2, hsM]
  obtain ⟨out, hout, -, -, -⟩ := most_frequent_prediction_rows s rest hall
  rw [← hcons] at hout
  have htrace : splits.enum.map (fun p => Event.trainFold p.1) =
      (List.range 5).map Event.trainFold := by
    have h1 : splits.enum.map (fun p => Event.trainFold p.1) =
        (splits.enum.map Prod.fst).map Event.trainFold := by
      rw [List.map_map]
      rfl
    rw [h1, List.enum_map_fst, hlen5]
  refine ⟨splits, out, hsplit, hout, ?_⟩
  rw [train_eval tm N splits out hsplit hout, htrace]

/-- Witness for C6 at `N = 10` with a trainer whose fold `i` predicts class `i`
for the single test row. -/
theorem train_sequential_trace_witness :
    ∃ splits final, KFold_split 5 10 = some splits ∧
      most_frequent_prediction (splits.enum.map
        (fun p => Submission.mk ["x"] [Int.ofNat p.1])) = some final ∧
      train (fun i _ => Submission.mk ["x"] [Int.ofNat i]) 10 =
        some (final, (List.range 5).map Event.trainFold ++ finishEvents) :=
  train_sequential_trace (fun i _ => Submission.mk ["x"] [Int.ofNat i]) 10 1
    (by decide) (fun _ _ => rfl)

/-- Witness for C10: a two-table heap whose tables are both referenced. -/
theorem most_frequent_prediction_heap_frame_witness :
    ∃ out, most_frequent_prediction_heap
        [⟨["a"], [1]⟩, ⟨["a"], [0]⟩] (0 :: [1]) =
        some (([⟨["a"], [1]⟩, ⟨["a"], [0]⟩] : List Submission) ++ [out],
          ([⟨["a"], [1]⟩, ⟨["a"], [0]⟩] : List Submission).length) ∧
      (∀ i, i < ([⟨["a"], [1]⟩, ⟨["a"], [0]⟩] : List Submission).length →
        (([⟨["a"], [1]⟩, ⟨["a"], [0]⟩] : List Submission) ++ [out])[i]? =
          ([⟨["a"], [1]⟩, ⟨["a"], [0]⟩] : List Submission)[i]?) ∧
      out.ids = (([⟨["a"], [1]⟩, ⟨["a"], [0]⟩] : List Submission).getD 0 default).ids :=
  most_frequent_prediction_heap_frame [⟨["a"], [1]⟩, ⟨["a"], [0]⟩] 0 [1]
    (by decide) (by decide)

/-- Witness for C7: re-running the aggregator on the heap left by a first run. -/
theorem most_frequent_prediction_heap_deterministic_witness :
    ∃ h₂ r₂, most_frequent_prediction_heap
        ([⟨["a"], [1]⟩, ⟨["a"], [0]⟩] ++ [⟨["a"], [0]⟩]) [0, 1] = some (h₂, r₂) ∧
      h₂[r₂]? =
        (([⟨["a"], [1]⟩, ⟨["a"], [0]⟩] ++ [⟨["a"], [0]⟩] : List Submission))[(2 : Nat)]? :=
  most_frequent_prediction_heap_deterministic [⟨["a"], [1]⟩, ⟨["a"], [0]⟩] [0, 1]
    ([⟨["a"], [1]⟩, ⟨["a"], [0]⟩] ++ [⟨["a"], [0]⟩]) 2 (by decide)

/-- Witness for C8 at `N = 10`. -/
theorem KFold_split_contiguous_blocks_witness :
    (∃ splits, KFold_split 5 10 = some splits ∧
      ∀ p ∈ splits, ∃ a b, p.2 = List.range' a b) ∧
    KFold_split 5 10 = some
      [([2, 3, 4, 5, 6, 7, 8, 9], [0, 1]),
       ([0, 1, 4, 5, 6, 7, 8, 9], [2, 3]),
       ([0, 1, 2, 3, 6, 7, 8, 9], [4, 5]),
       ([0, 1, 2, 3, 4, 5, 8, 9], [6, 7]),
       ([0, 1, 2, 3, 4, 5, 6, 7], [8, 9])] :=
  KFold_split_contiguous_blocks 10 (by decide)

end TrainPy
